import Mathlib

/-!
Verification development for the audio capture and dumping pipeline of this
repository: the container writers in `Source/Core/AudioCommon/AudioFile.cpp`
and `Source/Core/AudioCommon/WaveFile.cpp`, and the legacy dumper wrapper in
`Source/Core/AudioCommon/Src/AudioDumper.cpp`.

Modelling conventions:
* A byte is a `Nat` below 256; a file is a `List Nat` of bytes.  File writes
  during header construction append at the end of the file; the size patches
  performed by `Stop` are modelled by `writeAt`, which overwrites bytes at an
  absolute offset.
* 16-bit samples are carried as raw `Nat` memory values (the little-endian
  u16 the C code sees); `toS16` reads them as signed C `short` values, which
  are modelled as unbounded `Int` with explicit wrapping (`wrapS16`) exactly
  where the C code stores into a `short`.
* `Mixer::FIXED_SAMPLE_RATE_DIVIDEND` is declared in `AudioCommon/Mixer.h`,
  which is not part of the sources here, so the dividend is threaded through
  as an explicit parameter `dividend`.
* External collaborators (the filesystem existence prompt, `File::GetUserPath`,
  the actual OS file handle) are outside this core per the specification;
  opening a file is modelled as always succeeding, and writes to a closed
  file are dropped (as the `File::IOFile` wrapper does), while the rest of the
  member state is updated exactly as the code does.
-/

/-- Byte swap of a 16-bit value, as `Common::swap16` applied to a `u16`. -/
def swap16 (x : Nat) : Nat := (x % 256) * 256 + x / 256 % 256

/-- Reading a 16-bit memory value as a signed C `short` (twos-complement). -/
def toS16 (x : Nat) : Int :=
  if x % 65536 < 32768 then (x % 65536 : Nat) else (x % 65536 : Nat) - 65536

/-- Wrapping of an `int` value when stored into a C `short` (twos-complement). -/
def wrapS16 (x : Int) : Int := (x + 32768) % 65536 - 32768

/-- Saturation to the signed 16-bit range, as `std::clamp(x, -32768, 32767)`. -/
def satClamp16 (x : Int) : Int := min 32767 (max (-32768) x)

/-- Little-endian bytes of a C `short` value (the payload byte order of both
container variants). -/
def u16leInt (x : Int) : List Nat :=
  [((x % 65536).toNat) % 256, ((x % 65536).toNat) / 256]

/-- Little-endian bytes of a `u32` value (WAV header fields). -/
def u32le (v : Nat) : List Nat :=
  [v % 256, v / 256 % 256, v / 65536 % 256, v / 16777216 % 256]

/-- Big-endian bytes of a `u32` value (AIFF header fields, produced by the
byte-swapping `Write<u32>`). -/
def u32be (v : Nat) : List Nat :=
  [v / 16777216 % 256, v / 65536 % 256, v / 256 % 256, v % 256]

/-- Big-endian bytes of a `u16` value. -/
def u16be (v : Nat) : List Nat := [v / 256 % 256, v % 256]

/-- Big-endian bytes of a `u64` value. -/
def u64be (v : Nat) : List Nat :=
  [v / 2 ^ 56 % 256, v / 2 ^ 48 % 256, v / 2 ^ 40 % 256, v / 2 ^ 32 % 256,
   v / 16777216 % 256, v / 65536 % 256, v / 256 % 256, v % 256]

/-- The four ASCII bytes of a chunk tag, as written by `Write4`. -/
def fourCC (s : String) : List Nat := s.data.map Char.toNat

/-- Read a little-endian `u32` at an absolute byte offset. -/
def readU32LE (l : List Nat) (off : Nat) : Nat :=
  l.getD off 0 + 256 * l.getD (off + 1) 0 + 65536 * l.getD (off + 2) 0 +
    16777216 * l.getD (off + 3) 0

/-- Read a big-endian `u32` at an absolute byte offset. -/
def readU32BE (l : List Nat) (off : Nat) : Nat :=
  16777216 * l.getD off 0 + 65536 * l.getD (off + 1) 0 + 256 * l.getD (off + 2) 0 +
    l.getD (off + 3) 0

/-- Overwrite bytes of a file at an absolute offset (a `Seek` followed by a
write), zero-filling any gap if the offset is past the end. -/
def writeAt (l : List Nat) (off : Nat) (bs : List Nat) : List Nat :=
  l.take off ++ List.replicate (off - l.length) 0 ++ bs ++ l.drop (off + bs.length)

/-- Volume scaling as `AudioFileWriter::AddStereoSamplesBE` performs it:
`conv_buffer[i] = conv_buffer[i] * volume / 256`, a truncating `int` division
whose result is stored back into a `short`. -/
def audioVolumeStep (s v : Int) : Int := wrapS16 (Int.tdiv (s * v) 256)

/-- Volume scaling as `WaveFileWriter::AddStereoSamplesBE` performs it:
`sample = (sample * volume) >> 8`, an arithmetic right shift, i.e. flooring
division by 256. -/
def waveVolumeStep (s v : Int) : Int := Int.fdiv (s * v) 256

/-- The integer fallback strategy of the 80-bit sample-rate encoder
(`AudioFile.cpp` lines 157-169): while bit 63 of the 64-bit significand is
unset, shift left and decrement the exponent.  The loop is modelled with
explicit fuel; `none` marks fuel exhaustion with bit 63 still unset, which is
exactly the case (significand zero) in which the C loop never terminates. -/
def normLoop : Nat → Nat → Nat → Option (Nat × Nat)
  | 0, significand, exponent =>
    if Nat.testBit significand 63 then some (exponent, significand) else none
  | fuel + 1, significand, exponent =>
    if Nat.testBit significand 63 then some (exponent, significand)
    else normLoop fuel (significand * 2 % 2 ^ 64) (exponent - 1)

/-- Strategy 3 of the sample-rate encoder: significand starts at the `u64`
integer quotient, exponent at `0x3FFF + 63`, then shift-normalize. -/
def encode80_integer (dividend divisor : Nat) : Option (Nat × Nat) :=
  normLoop 64 (dividend / divisor % 2 ^ 64) (0x3FFF + 63)

/-- Modelled bit fields of the IEEE-754 binary64 value equal to the positive
integer `q`: biased 11-bit exponent `0x3FF + log2 q` and the 52 fraction bits
below the leading bit.  This embeds the `IEEE64BitFloat` union punning of
strategy 2 at inputs where the `double` division is exact, i.e. when `q` has
at most 53 significant bits (the hypothesis under which claim C3 is stated);
IEEE-754 then fully determines these fields. -/
def doubleRateBits (q : Nat) : Nat × Nat :=
  (0x3FF + Nat.log2 q, q * 2 ^ 52 / 2 ^ Nat.log2 q % 2 ^ 52)

/-- Modelled bit fields of the 80-bit extended value equal to the positive
integer `q < 2^64`: biased 15-bit exponent `0x3FFF + log2 q` and the 64-bit
significand with its explicit leading bit set.  This embeds the
`IEEE80BitFloat` union punning of strategy 1 at exactly representable
inputs, where IEEE-754 fully determines the fields. -/
def extendedRateBits (q : Nat) : Nat × Nat :=
  (0x3FFF + Nat.log2 q, q * 2 ^ (63 - Nat.log2 q))

/-- Strategy 1 of the sample-rate encoder (native x87 `long double`
reinterpretation), at an exactly representable integer quotient. -/
def encode80_native (dividend divisor : Nat) : Nat × Nat :=
  extendedRateBits (dividend / divisor)

/-- Strategy 2 of the sample-rate encoder (`AudioFile.cpp` lines 144-152):
re-bias the 11-bit double exponent to 15 bits, shift the 52-bit fraction into
the top of the 64-bit significand field, and force the explicit leading bit. -/
def encode80_double (dividend divisor : Nat) : Nat × Nat :=
  let f := doubleRateBits (dividend / divisor)
  (0x3FFF + (f.1 - 0x3FF), f.2 * 2 ^ (63 - 52) ||| 1 <<< 63)

/-- Whether a batch is entirely zero samples, as the `skip_silence` scan in
`AddStereoSamplesBE` computes it (it inspects `count * 2` shorts). -/
def allZero (data : List Nat) (count : Nat) : Bool :=
  (List.range (2 * count)).all fun i => data.getD i 0 == 0

/-- One frame of the conversion buffer of `AudioFileWriter::AddStereoSamplesBE`,
already serialized to its four payload bytes: the channels are flipped from RL
to LR, byte-swapped, and volume-scaled. -/
def convFrame (data : List Nat) (i : Nat) (lv rv : Int) : List Nat :=
  u16leInt (audioVolumeStep (toS16 (swap16 (data.getD (2 * i + 1) 0))) lv) ++
    u16leInt (audioVolumeStep (toS16 (swap16 (data.getD (2 * i) 0))) rv)

/-- The `count * 4` payload bytes written by one accepted batch of
`AudioFileWriter::AddStereoSamplesBE`. -/
def convBytes (data : List Nat) (count : Nat) (lv rv : Int) : List Nat :=
  ((List.range count).map fun i => convFrame data i lv rv).flatten

/-- The WAV header written by `AudioFileWriter::Start` (and, identically, by
`WaveFileWriter::Start`), as the sequence of `Write4`/`Write<u32>` appends the
code performs.  `sr` is the `u32` sample rate `dividend / divisor`. -/
def wavHeaderBytes (dividend divisor : Nat) : List Nat :=
  let sr := dividend / divisor % 2 ^ 32
  let c := fourCC "RIFF"
  let c := c ++ u32le (100 * 1000 * 1000)
  let c := c ++ fourCC "WAVE"
  let c := c ++ fourCC "fmt "
  let c := c ++ u32le 16
  let c := c ++ u32le 0x00020001
  let c := c ++ u32le sr
  let c := c ++ u32le (sr * 2 * 2)
  let c := c ++ u32le 0x00100004
  let c := c ++ fourCC "data"
  let c := c ++ u32le (100 * 1000 * 1000 - 32)
  c

/-- The fault check after the WAV header of `Start`: the code raises the wrong-offset alert if the
stream position (the number of bytes written) differs from 44. -/
def wavStartFault (dividend divisor : Nat) : Bool :=
  (wavHeaderBytes dividend divisor).length != 44

/-- The AIFF/AIFC header written by `AudioFileWriter::Start`.  The 80-bit
sample-rate field is produced here by the integer fallback strategy
(`encode80_integer`), the only host-independent one of the three; on
conforming hosts all three strategies agree (claim C3).  The `getD` default
covers the zero-quotient case, in which the C encoder does not terminate. -/
def aiffHeaderBytes (dividend divisor : Nat) : List Nat :=
  let es := (encode80_integer dividend divisor).getD (0, 0)
  let c := fourCC "FORM"
  let c := c ++ u32be (100 * 1000 * 1000)
  let c := c ++ fourCC "AIFC"
  let c := c ++ fourCC "FVER"
  let c := c ++ u32be 4
  let c := c ++ u32be 0xA2805140
  let c := c ++ fourCC "COMM"
  let c := c ++ u32be 0x18
  let c := c ++ u16be 2
  let c := c ++ u32be (100 * 1000 * 1000 / 2)
  let c := c ++ u16be 16
  let c := c ++ u16be es.1
  let c := c ++ u64be es.2
  let c := c ++ fourCC "sowt"
  let c := c ++ u16be 0
  let c := c ++ fourCC "SSND"
  let c := c ++ u32be (100 * 1000 * 1000)
  let c := c ++ u32be 0
  let c := c ++ u32be 0
  c

/-- Modelled from the spec: `SplitPath` (in `Common/StringUtil`, not among the
sources here) extracting the basename of the first opened filename — the part
after the last path separator and before the last dot. -/
def splitBasename (s : String) : String :=
  let afterSlash := s.data.foldl (fun acc c => if c = '/' then [] else acc ++ [c]) []
  let r := afterSlash.reverse
  String.mk (if r.contains '.' then ((r.dropWhile (· ≠ '.')).drop 1).reverse else afterSlash)

/-- The member state of `AudioFileWriter`, together with the bytes of the
currently open segment file and the finalized segment files so far. -/
structure AudioFileWriter where
  isOpen : Bool
  contents : List Nat
  audio_size : Nat
  current_divisor : Nat
  use_aiff : Bool
  skip_silence : Bool
  basename : String
  file_index : Nat
  current_filename : String
  closed_files : List (String × List Nat)

/-- A fresh writer (no file open yet), with the given `skip_silence` flag. -/
def initWriter (skipSilence : Bool) : AudioFileWriter :=
  { isOpen := false, contents := [], audio_size := 0, current_divisor := 0,
    use_aiff := false, skip_silence := skipSilence, basename := "",
    file_index := 0, current_filename := "", closed_files := [] }

/-- `AudioFileWriter::Start`: refuses if a stream is already open; otherwise
opens the file, resets `audio_size`, derives the basename from the first
filename, records the divisor and variant, and writes the variant header.
The filesystem existence prompt and open failures are external collaborators
and are modelled as succeeding. -/
def AudioFileWriter.start (dividend : Nat) (w : AudioFileWriter) (filename : String)
    (divisor : Nat) (aiff : Bool) : AudioFileWriter × Bool :=
  if w.isOpen then (w, false)
  else
    ({ w with
        isOpen := true
        contents := if aiff then aiffHeaderBytes dividend divisor
                    else wavHeaderBytes dividend divisor
        audio_size := 0
        basename := if w.basename = "" then splitBasename filename else w.basename
        current_divisor := divisor
        use_aiff := aiff
        current_filename := filename },
      true)

/-- The size patches `AudioFileWriter::Stop` seeks back and writes, per
variant.  All field values are `u32` writes; the AIFF `audio_size - 8` is the
wrapping `u32` subtraction. -/
def patchStop (aiff : Bool) (c : List Nat) (asize : Nat) : List Nat :=
  if aiff then
    writeAt (writeAt (writeAt c 4 (u32be (asize + 72 - 8))) 34 (u32be (asize / 4))) 60
      (u32be (2 ^ 32 + asize - 8))
  else
    writeAt (writeAt c 4 (u32le (asize + 36))) 40 (u32le asize)

/-- `AudioFileWriter::Stop`: patch the size fields of the open segment and
close the stream.  On a closed stream every file operation fails and the
state is unchanged. -/
def AudioFileWriter.stop (w : AudioFileWriter) : AudioFileWriter :=
  if w.isOpen then
    let c := patchStop w.use_aiff w.contents w.audio_size
    { w with contents := c, isOpen := false,
             closed_files := w.closed_files ++ [(w.current_filename, c)] }
  else w

/-- The error conditions `AudioFileWriter::AddStereoSamplesBE` reports (file
not open, or batch larger than the conversion buffer of `bufCap` frames).
The code only logs them: execution falls through regardless. -/
def audioReportsError (w : AudioFileWriter) (count bufCap : Nat) : Bool :=
  !w.isOpen || decide (count > bufCap * 2)

/-- `AudioFileWriter::AddStereoSamplesBE`: skip an all-zero batch when
`skip_silence` is set; otherwise convert the batch, rotate to a new numbered
segment if the declared divisor differs from the current one, then append the
converted bytes (dropped by the file wrapper if no stream is open) and add
`count * 4` to `audio_size` unconditionally. -/
def AudioFileWriter.addStereoSamplesBE (dividend : Nat) (dumpPath : String)
    (w : AudioFileWriter) (data : List Nat) (count : Nat) (divisor : Nat)
    (lv rv : Int) : AudioFileWriter :=
  if w.skip_silence && allZero data count then w
  else
    let w1 :=
      if divisor ≠ w.current_divisor then
        let ws := w.stop
        let idx := ws.file_index + 1
        let fname := dumpPath ++ ws.basename ++ toString idx ++
          (if ws.use_aiff then ".aiff" else ".wav")
        let wn := (AudioFileWriter.start dividend { ws with file_index := idx } fname
          divisor ws.use_aiff).1
        { wn with current_divisor := divisor }
      else w
    { w1 with
      contents := if w1.isOpen then w1.contents ++ convBytes data count lv rv
                  else w1.contents
      audio_size := w1.audio_size + count * 4 }

/-- Wrapping `u32` subtraction `a - b`, as the unsigned loop bound
`count * 2 - r_index` of `WaveFileWriter::AddStereoSamplesBE` computes it. -/
def uSub32 (a b : Nat) : Nat := (2 ^ 32 + a - b) % 2 ^ 32

/-- Linear interpolation of one channel in `WaveFileWriter::AddStereoSamplesBE`:
`((cur << 16) + (next - cur) * (u16)frac) >> 16` in `int` arithmetic. -/
def interpSample (cur next : Int) (fr : Nat) : Int :=
  Int.fdiv (cur * 65536 + (next - cur) * ((fr % 65536 : Nat) : Int)) 65536

/-- The member state of `WaveFileWriter` (the resampling WAV-only variant):
the overlap-accumulation output buffer and the fractional phase persist
across calls. -/
structure WaveFileWriter where
  isOpen : Bool
  contents : List Nat
  audio_size : Nat
  frac : Nat
  out_buffer : Nat → Int
  skip_silence : Bool

/-- The resampling loop of `WaveFileWriter::AddStereoSamplesBE`.  One
iteration interpolates both channels at the current phase, volume-scales,
accumulates into the output buffer with clamping, then advances the phase by
`rconv` and the read index by the phase overflow.  The loop runs while
`current_sample < count * 2` and the unsigned `count * 2 - r_index` exceeds 2;
since `current_sample` grows by 2 every iteration, at most `count` iterations
occur, so the explicit fuel (called with `count + 1`) is never exhausted. -/
def waveLoop (data : List Nat) (count : Nat) (lv rv : Int) (rconv : Nat) :
    Nat → Nat → Nat → Nat → (Nat → Int) → Nat × Nat × (Nat → Int)
  | 0, _, current_sample, fr, buf => (current_sample, fr, buf)
  | fuel + 1, r_index, current_sample, fr, buf =>
    if current_sample < count * 2 ∧ uSub32 (count * 2) r_index > 2 then
      let l1 := toS16 (swap16 (data.getD (r_index + 1) 0))
      let l2 := toS16 (swap16 (data.getD (r_index + 3) 0))
      let sl := waveVolumeStep (interpSample l1 l2 fr) lv + buf (current_sample + 1)
      let r1 := toS16 (swap16 (data.getD r_index 0))
      let r2 := toS16 (swap16 (data.getD (r_index + 2) 0))
      let sr := waveVolumeStep (interpSample r1 r2 fr) rv + buf current_sample
      let buf2 : Nat → Int := fun j =>
        if j = current_sample + 1 then satClamp16 sl
        else if j = current_sample then satClamp16 sr
        else buf j
      let fr2 := (fr + rconv) % 2 ^ 32
      waveLoop data count lv rv rconv fuel
        ((r_index + 2 * (fr2 / 65536 % 65536)) % 2 ^ 32) (current_sample + 2)
        (fr2 % 65536) buf2
    else (current_sample, fr, buf)

/-- The bytes of the first `n` shorts of the output buffer, as
`file.WriteBytes(out_buffer.data(), current_sample * 2)` emits them. -/
def outBytes (buf : Nat → Int) (n : Nat) : List Nat :=
  ((List.range n).map fun i => u16leInt (buf i)).flatten

/-- `WaveFileWriter::AddStereoSamplesBE`.  The error conditions are only
logged (execution falls through); an all-zero batch is skipped when
`skip_silence` is set; otherwise the resampling loop runs and the produced
shorts are appended to the file.  The conversion step `rconv` is the `u32`
value of the `float` expression `65536 * (dividend / divisor) / OUT_SAMPLE_RATE`
(lines 142-145); host floating point is not embedded, so the model takes the
resulting fixed-point step as a parameter. -/
def WaveFileWriter.addStereoSamplesBE (w : WaveFileWriter) (data : List Nat)
    (count : Nat) (rconv : Nat) (lv rv : Int) : WaveFileWriter :=
  if w.skip_silence && allZero data count then w
  else
    let res := waveLoop data count lv rv rconv (count + 1) 0 0 w.frac w.out_buffer
    { w with
      frac := res.2.1
      out_buffer := res.2.2
      contents := if w.isOpen then w.contents ++ outBytes res.2.2 res.1 else w.contents
      audio_size := w.audio_size + res.1 * 2 }

/-- Modelled from the spec: the legacy `WaveFileWriter` used by `AudioDumper`
(its `Src/WaveFile.h`/`.cpp` are not among the sources here).  Per the spec,
`bytes_written` (`audio_size`, returned by `GetAudioSize`) is reset to 0 on
`Start` and grows by 4 bytes per appended stereo frame (2 channels times
2 bytes, raw passthrough); nothing else of it is needed by the claims. -/
structure LegacyWaveWriter where
  audio_size : Nat

/-- The member state of `AudioDumper` (`Src/AudioDumper.cpp`). -/
structure AudioDumper where
  wfr : LegacyWaveWriter
  currentrate : Int
  fileopen : Bool
  fileindex : Nat
  basename : String

/-- The `AudioDumper` constructor. -/
def AudioDumper.make (b : String) : AudioDumper :=
  { wfr := ⟨0⟩, currentrate := 0, fileopen := false, fileindex := 0, basename := b }

/-- `AudioDumper::CheckEm`: if no file is open, the declared rate changed, or
the accumulated payload exceeds 2,000,000,000 bytes, stop the current file (if
open) and start a new numbered segment (which resets the payload counter);
filesystem failures of `CreateFullPath`/`Start` are external and modelled as
not occurring. -/
def AudioDumper.checkEm (d : AudioDumper) (srate : Int) : AudioDumper × Bool :=
  if ¬d.fileopen ∨ srate ≠ d.currentrate ∨ d.wfr.audio_size > 2 * 1000 * 1000 * 1000 then
    ({ d with wfr := ⟨0⟩, fileopen := true, currentrate := srate,
              fileindex := d.fileindex + 1 }, true)
  else (d, true)

/-- `AudioDumper::DumpSamplesBE`: rotate if needed via `CheckEm`, then append
the batch (`4 * nsamp` payload bytes).  Returns the state and whether the
batch was written. -/
def AudioDumper.dumpSamplesBE (d : AudioDumper) (nsamp : Nat) (srate : Int) :
    AudioDumper × Bool :=
  let r := d.checkEm srate
  if r.2 then ({ r.1 with wfr := ⟨r.1.wfr.audio_size + 4 * nsamp⟩ }, true)
  else (r.1, false)

/-- `AudioDumper::DumpSamples` (host-endian variant): identical bookkeeping. -/
def AudioDumper.dumpSamples (d : AudioDumper) (nsamp : Nat) (srate : Int) :
    AudioDumper × Bool :=
  let r := d.checkEm srate
  if r.2 then ({ r.1 with wfr := ⟨r.1.wfr.audio_size + 4 * nsamp⟩ }, true)
  else (r.1, false)

/-! ## Auxiliary lemmas about the byte-level primitives -/

lemma writeAt_prefix_length (l : List Nat) (off : Nat) :
    (l.take off ++ List.replicate (off - l.length) 0).length = off := by
  simp only [List.length_append, List.length_take, List.length_replicate]
  omega

lemma getD_writeAt_inside (l : List Nat) (off : Nat) (bs : List Nat) (i : Nat)
    (h : i < bs.length) : (writeAt l off bs).getD (off + i) 0 = bs.getD i 0 := by
  have hp := writeAt_prefix_length l off
  unfold writeAt
  rw [List.append_assoc]
  rw [List.getD_append_right _ _ 0 (off + i) (by omega)]
  rw [hp, Nat.add_sub_cancel_left]
  exact List.getD_append _ _ 0 i h

lemma getD_writeAt_lt (l : List Nat) (off : Nat) (bs : List Nat) (j : Nat)
    (h : j < off) : (writeAt l off bs).getD j 0 = l.getD j 0 := by
  have hp := writeAt_prefix_length l off
  unfold writeAt
  rw [List.append_assoc]
  rw [List.getD_append _ _ 0 j (by omega)]
  by_cases hj : j < l.length
  · rw [List.getD_append _ _ 0 j (by simp [List.length_take]; omega)]
    simp [List.getD_eq_getElem?_getD, List.getElem?_take, h]
  · rw [List.getD_append_right _ _ 0 j (by simp [List.length_take]; omega)]
    rw [List.getD_eq_default _ _ (by omega : l.length ≤ j)]
    simp only [List.getD_eq_getElem?_getD, List.getElem?_replicate]
    split <;> rfl

lemma readU32LE_writeAt (l : List Nat) (off v : Nat) :
    readU32LE (writeAt l off (u32le v)) off = v % 2 ^ 32 := by
  have e0 : (writeAt l off (u32le v)).getD off 0 = (u32le v).getD 0 0 := by
    simpa using getD_writeAt_inside l off (u32le v) 0 (by simp [u32le])
  have e1 : (writeAt l off (u32le v)).getD (off + 1) 0 = (u32le v).getD 1 0 :=
    getD_writeAt_inside l off _ 1 (by simp [u32le])
  have e2 : (writeAt l off (u32le v)).getD (off + 2) 0 = (u32le v).getD 2 0 :=
    getD_writeAt_inside l off _ 2 (by simp [u32le])
  have e3 : (writeAt l off (u32le v)).getD (off + 3) 0 = (u32le v).getD 3 0 :=
    getD_writeAt_inside l off _ 3 (by simp [u32le])
  unfold readU32LE
  rw [e0, e1, e2, e3]
  simp only [u32le, List.getD_cons_zero, List.getD_cons_succ]
  omega

lemma readU32BE_writeAt (l : List Nat) (off v : Nat) :
    readU32BE (writeAt l off (u32be v)) off = v % 2 ^ 32 := by
  have e0 : (writeAt l off (u32be v)).getD off 0 = (u32be v).getD 0 0 := by
    simpa using getD_writeAt_inside l off (u32be v) 0 (by simp [u32be])
  have e1 : (writeAt l off (u32be v)).getD (off + 1) 0 = (u32be v).getD 1 0 :=
    getD_writeAt_inside l off _ 1 (by simp [u32be])
  have e2 : (writeAt l off (u32be v)).getD (off + 2) 0 = (u32be v).getD 2 0 :=
    getD_writeAt_inside l off _ 2 (by simp [u32be])
  have e3 : (writeAt l off (u32be v)).getD (off + 3) 0 = (u32be v).getD 3 0 :=
    getD_writeAt_inside l off _ 3 (by simp [u32be])
  unfold readU32BE
  rw [e0, e1, e2, e3]
  simp only [u32be, List.getD_cons_zero, List.getD_cons_succ]
  omega

lemma readU32LE_writeAt_lt (l : List Nat) (off : Nat) (bs : List Nat) (off2 : Nat)
    (h : off2 + 4 ≤ off) : readU32LE (writeAt l off bs) off2 = readU32LE l off2 := by
  unfold readU32LE
  rw [getD_writeAt_lt l off bs off2 (by omega), getD_writeAt_lt l off bs (off2 + 1) (by omega),
    getD_writeAt_lt l off bs (off2 + 2) (by omega), getD_writeAt_lt l off bs (off2 + 3) (by omega)]

lemma readU32BE_writeAt_lt (l : List Nat) (off : Nat) (bs : List Nat) (off2 : Nat)
    (h : off2 + 4 ≤ off) : readU32BE (writeAt l off bs) off2 = readU32BE l off2 := by
  unfold readU32BE
  rw [getD_writeAt_lt l off bs off2 (by omega), getD_writeAt_lt l off bs (off2 + 1) (by omega),
    getD_writeAt_lt l off bs (off2 + 2) (by omega), getD_writeAt_lt l off bs (off2 + 3) (by omega)]

lemma flatten_map_range_length {α : Type} (f : Nat → List α) (k n : Nat)
    (h : ∀ i, (f i).length = k) : (((List.range n).map f).flatten).length = n * k := by
  induction n with
  | zero => simp
  | succ m ih =>
    rw [List.range_succ, List.map_append, List.flatten_append, List.length_append, ih]
    simp [h m, Nat.succ_mul]

lemma convBytes_length (data : List Nat) (count : Nat) (lv rv : Int) :
    (convBytes data count lv rv).length = count * 4 := by
  unfold convBytes
  exact flatten_map_range_length _ 4 count fun i => by simp [convFrame, u16leInt]

lemma toS16_range (x : Nat) : -32768 ≤ toS16 x ∧ toS16 x ≤ 32767 := by
  unfold toS16
  have h1 : x % 65536 < 65536 := Nat.mod_lt _ (by norm_num)
  split <;> constructor <;> omega

/-! ## Auxiliary lemmas about `Nat.log2`, bit operations, and the shift loop -/

lemma log2_two_mul (n : Nat) (h : 0 < n) : Nat.log2 (n * 2) = Nat.log2 n + 1 := by
  rw [Nat.log2_eq_log_two, Nat.log2_eq_log_two]
  exact Nat.log_mul_base (by norm_num) (by omega)

lemma log2_le_of_lt_two_pow (n k : Nat) (h0 : 0 < n) (h : n < 2 ^ (k + 1)) :
    Nat.log2 n ≤ k := by
  by_contra hc
  push_neg at hc
  have h1 : 2 ^ (k + 1) ≤ 2 ^ Nat.log2 n := Nat.pow_le_pow_right (by norm_num) hc
  have h2 : 2 ^ Nat.log2 n ≤ n := Nat.log2_self_le (by omega)
  omega

lemma le_log2_of_two_pow_le (n k : Nat) (h : 2 ^ k ≤ n) : k ≤ Nat.log2 n := by
  by_contra hc
  push_neg at hc
  have h2 : n < 2 ^ (Nat.log2 n + 1) := Nat.lt_log2_self
  have h3 : 2 ^ (Nat.log2 n + 1) ≤ 2 ^ k := Nat.pow_le_pow_right (by norm_num) (by omega)
  omega

lemma testBit63_iff (s : Nat) (h : s < 2 ^ 64) : s.testBit 63 = true ↔ 2 ^ 63 ≤ s := by
  rw [Nat.testBit_to_div_mod]
  simp only [decide_eq_true_eq]
  omega

lemma normLoop_eq (fuel : Nat) : ∀ sig exp : Nat, 0 < sig → sig < 2 ^ 64 →
    63 - Nat.log2 sig ≤ fuel →
    normLoop fuel sig exp = some (exp - (63 - Nat.log2 sig), sig * 2 ^ (63 - Nat.log2 sig)) := by
  induction fuel with
  | zero =>
    intro sig exp h0 h64 hf
    have hlog : 63 ≤ Nat.log2 sig := by omega
    have hs : 2 ^ 63 ≤ sig :=
      le_trans (Nat.pow_le_pow_right (by norm_num) hlog) (Nat.log2_self_le (by omega))
    have ht : sig.testBit 63 = true := (testBit63_iff sig h64).2 hs
    have hz : 63 - Nat.log2 sig = 0 := by omega
    simp [normLoop, ht, hz]
  | succ m ih =>
    intro sig exp h0 h64 hf
    by_cases ht : sig.testBit 63 = true
    · have hs : 2 ^ 63 ≤ sig := (testBit63_iff sig h64).1 ht
      have hlog : 63 ≤ Nat.log2 sig := le_log2_of_two_pow_le sig 63 hs
      have hz : 63 - Nat.log2 sig = 0 := by omega
      simp [normLoop, ht, hz]
    · have hts : sig.testBit 63 = false := by simpa using ht
      have hs : sig < 2 ^ 63 := by
        by_contra hcon
        push_neg at hcon
        rw [(testBit63_iff sig h64).2 hcon] at hts
        simp at hts
      have hklt : Nat.log2 sig ≤ 62 :=
        log2_le_of_lt_two_pow sig 62 h0 (by norm_num at hs ⊢; omega)
      have h2 : sig * 2 < 2 ^ 64 := by omega
      have hmod : sig * 2 % 2 ^ 64 = sig * 2 := Nat.mod_eq_of_lt h2
      have hlog2 : Nat.log2 (sig * 2) = Nat.log2 sig + 1 := log2_two_mul sig h0
      have hrec := ih (sig * 2) (exp - 1) (by omega) h2 (by omega)
      rw [hlog2] at hrec
      simp only [normLoop, hts, Bool.false_eq_true, if_false, hmod]
      rw [hrec]
      have e1 : exp - 1 - (63 - (Nat.log2 sig + 1)) = exp - (63 - Nat.log2 sig) := by omega
      have e2 : sig * 2 * 2 ^ (63 - (Nat.log2 sig + 1)) = sig * 2 ^ (63 - Nat.log2 sig) := by
        have : 63 - Nat.log2 sig = (63 - (Nat.log2 sig + 1)) + 1 := by omega
        rw [this, pow_succ]
        ring
      rw [e1, e2]

lemma lor_two_pow_of_lt (x i : Nat) (h : x < 2 ^ i) : x ||| 2 ^ i = x + 2 ^ i := by
  apply Nat.eq_of_testBit_eq
  intro j
  rw [Nat.testBit_lor]
  rcases lt_trichotomy j i with hj | hj | hj
  · rw [Nat.testBit_two_pow_of_ne (by omega : i ≠ j)]
    rw [Bool.or_false]
    rw [Nat.testBit_to_div_mod, Nat.testBit_to_div_mod]
    have hsplit : 2 ^ i = 2 ^ (i - j) * 2 ^ j := by
      rw [← pow_add]
      congr 1
      omega
    have hdiv : (x + 2 ^ i) / 2 ^ j = x / 2 ^ j + 2 ^ (i - j) := by
      rw [hsplit, Nat.add_mul_div_right _ _ (Nat.pos_pow_of_pos j (by norm_num))]
    rw [hdiv]
    have hsplit2 : 2 ^ (i - j) = 2 ^ (i - j - 1) * 2 := by
      rw [← pow_succ]
      congr 1
      omega
    rw [hsplit2, Nat.add_mul_mod_self_right]
  · subst hj
    rw [Nat.testBit_two_pow_self, Bool.or_true]
    rw [Nat.testBit_to_div_mod]
    have h1 : (x + 2 ^ j) / 2 ^ j = 1 := by
      rw [Nat.add_div_right _ (Nat.pos_pow_of_pos j (by norm_num)), Nat.div_eq_of_lt h]
    simp [h1]
  · rw [Nat.testBit_two_pow_of_ne (by omega : i ≠ j)]
    have h1 : (2 : Nat) ^ i ≤ 2 ^ j := Nat.pow_le_pow_right (by norm_num) (by omega)
    have h2 : (2 : Nat) ^ (i + 1) ≤ 2 ^ j := Nat.pow_le_pow_right (by norm_num) (by omega)
    rw [Nat.testBit_eq_false_of_lt (by omega : x < 2 ^ j),
      Nat.testBit_eq_false_of_lt (show x + 2 ^ i < 2 ^ j by rw [pow_succ] at h2; omega)]
    rfl

/-! ## Auxiliary lemmas about the volume and interpolation arithmetic -/

lemma tdiv256_bounds (t : Int) (h1 : -8388608 ≤ t) (h2 : t ≤ 8388352) :
    -32768 ≤ Int.tdiv t 256 ∧ Int.tdiv t 256 ≤ 32767 := by
  rcases le_or_lt 0 t with hp | hn
  · rw [Int.tdiv_eq_ediv hp (by norm_num)]
    omega
  · have he : Int.tdiv t 256 = -(Int.tdiv (-t) 256) := by
      rw [← Int.neg_tdiv, neg_neg]
    rw [he, Int.tdiv_eq_ediv (by omega) (by norm_num)]
    omega

lemma fdiv256_bounds (t : Int) (h1 : -8388608 ≤ t) (h2 : t ≤ 8388352) :
    -32768 ≤ Int.fdiv t 256 ∧ Int.fdiv t 256 ≤ 32767 := by
  rw [Int.fdiv_eq_ediv t (by norm_num)]
  omega

lemma wrapS16_eq_of_range (x : Int) (h1 : -32768 ≤ x) (h2 : x ≤ 32767) : wrapS16 x = x := by
  unfold wrapS16
  omega

lemma satClamp16_eq_of_range (x : Int) (h1 : -32768 ≤ x) (h2 : x ≤ 32767) :
    satClamp16 x = x := by
  unfold satClamp16
  omega

lemma uSub32_eq (a b : Nat) (h1 : b ≤ a) (h2 : a - b < 2 ^ 32) : uSub32 a b = a - b := by
  unfold uSub32
  omega

lemma getD_replicate (n a i : Nat) (h : i < n) : (List.replicate n a).getD i 0 = a := by
  simp [List.getD_eq_getElem?_getD, List.getElem?_replicate, h]

lemma interpSample_const (c : Int) : interpSample c c 0 = c := by
  unfold interpSample
  simp

lemma waveVolumeStep_256 (c : Int) : waveVolumeStep c 256 = c := by
  unfold waveVolumeStep
  exact Int.mul_fdiv_cancel c (by norm_num)

lemma waveLoop_frac_zero (data : List Nat) (count : Nat) (lv rv : Int) :
    ∀ fuel r cs buf, (waveLoop data count lv rv 65536 fuel r cs 0 buf).2.1 = 0 := by
  intro fuel
  induction fuel with
  | zero => intro r cs buf; rfl
  | succ m ih =>
    intro r cs buf
    by_cases hc : cs < count * 2 ∧ uSub32 (count * 2) r > 2
    · simp only [waveLoop]
      rw [if_pos hc]
      exact ih _ _ _
    · simp only [waveLoop]
      rw [if_neg hc]

lemma waveLoop_const (count u : Nat) (hcount : 2 * count < 2 ^ 32) :
    ∀ fuel cs buf, 2 ∣ cs → cs ≤ 2 * count - 2 → 2 * count - 2 - cs ≤ 2 * fuel →
    (∀ j, buf j = if j < cs then toS16 (swap16 u) else 0) →
    waveLoop (List.replicate (2 * count) u) count 256 256 65536 fuel cs cs 0 buf =
      (2 * count - 2, 0, fun j => if j < 2 * count - 2 then toS16 (swap16 u) else 0) := by
  intro fuel
  induction fuel with
  | zero =>
    intro cs buf hdvd hle hf hbuf
    have hcs : cs = 2 * count - 2 := by omega
    subst hcs
    exact congrArg (Prod.mk _) (congrArg (Prod.mk _) (funext fun j => hbuf j))
  | succ m ih =>
    intro cs buf hdvd hle hf hbuf
    simp only [waveLoop]
    by_cases hc : cs < count * 2 ∧ uSub32 (count * 2) cs > 2
    · rw [if_pos hc]
      have hub : uSub32 (count * 2) cs = count * 2 - cs :=
        uSub32_eq _ _ (by omega) (by omega)
      have h4 : cs + 4 ≤ 2 * count := by
        have h3 := hc.2
        rw [hub] at h3
        omega
      have g0 : (List.replicate (2 * count) u).getD cs 0 = u := getD_replicate _ _ _ (by omega)
      have g1 : (List.replicate (2 * count) u).getD (cs + 1) 0 = u :=
        getD_replicate _ _ _ (by omega)
      have g2 : (List.replicate (2 * count) u).getD (cs + 2) 0 = u :=
        getD_replicate _ _ _ (by omega)
      have g3 : (List.replicate (2 * count) u).getD (cs + 3) 0 = u :=
        getD_replicate _ _ _ (by omega)
      have hb1 : buf (cs + 1) = 0 := by rw [hbuf, if_neg (by omega)]
      have hb0 : buf cs = 0 := by rw [hbuf, if_neg (by omega)]
      have hrange := toS16_range (swap16 u)
      have hcl : satClamp16 (toS16 (swap16 u)) = toS16 (swap16 u) :=
        satClamp16_eq_of_range _ hrange.1 hrange.2
      simp only [g0, g1, g2, g3, hb1, hb0, interpSample_const, waveVolumeStep_256, add_zero, hcl]
      have e1 : (0 + 65536) % 2 ^ 32 = 65536 := by norm_num
      have e2 : (65536 : Nat) / 65536 % 65536 = 1 := by norm_num
      have e3 : (65536 : Nat) % 65536 = 0 := by norm_num
      simp only [e1, e2, e3, Nat.mul_one]
      have e4 : (cs + 2) % 2 ^ 32 = cs + 2 := Nat.mod_eq_of_lt (by omega)
      simp only [e4]
      have hbc : (fun j => if j = cs + 1 then toS16 (swap16 u)
            else if j = cs then toS16 (swap16 u) else buf j)
          = fun j => if j < cs + 2 then toS16 (swap16 u) else 0 := by
        funext j
        by_cases hj1 : j = cs + 1
        · rw [if_pos hj1, if_pos (by omega)]
        · by_cases hj0 : j = cs
          · rw [if_neg hj1, if_pos hj0, if_pos (by omega)]
          · rw [if_neg hj1, if_neg hj0, hbuf]
            by_cases hjlt : j < cs
            · rw [if_pos hjlt, if_pos (by omega)]
            · rw [if_neg hjlt, if_neg (by omega)]
      rw [hbc]
      exact ih (cs + 2) _ (by omega) (by omega) (by omega) (fun j => rfl)
    · rw [if_neg hc]
      have hcs : cs = 2 * count - 2 := by
        rcases Nat.eq_zero_or_pos count with h0 | hpos
        · subst h0
          omega
        · have h1 : cs < count * 2 := by omega
          have h2 : ¬ uSub32 (count * 2) cs > 2 := fun hgt => hc ⟨h1, hgt⟩
          rw [uSub32_eq _ _ (by omega) (by omega)] at h2
          omega
      subst hcs
      exact congrArg (Prod.mk _) (congrArg (Prod.mk _) (funext fun j => hbuf j))

lemma waveAdd_const (count u : Nat) (w : WaveFileWriter) (hcount : 2 * count < 2 ^ 32)
    (hfr : w.frac = 0) (hss : w.skip_silence = false) (hbuf : ∀ j, w.out_buffer j = 0) :
    (w.addStereoSamplesBE (List.replicate (2 * count) u) count 65536 256 256).out_buffer
        = (fun j => if j < 2 * count - 2 then toS16 (swap16 u) else 0) ∧
    (w.addStereoSamplesBE (List.replicate (2 * count) u) count 65536 256 256).frac = 0 ∧
    (w.addStereoSamplesBE (List.replicate (2 * count) u) count 65536 256 256).audio_size
        = w.audio_size + (2 * count - 2) * 2 := by
  unfold WaveFileWriter.addStereoSamplesBE
  rw [hss, hfr]
  simp only [Bool.false_and, Bool.false_eq_true, if_false]
  rw [waveLoop_const count u hcount (count + 1) 0 w.out_buffer (by omega) (by omega) (by omega)
    (fun j => by rw [hbuf j, if_neg (by omega)])]
  exact ⟨rfl, rfl, rfl⟩

lemma waveAdd_frac_zero (w : WaveFileWriter) (data : List Nat) (count : Nat) (lv rv : Int)
    (hfr : w.frac = 0) :
    (w.addStereoSamplesBE data count 65536 lv rv).frac = 0 ∧
    (w.addStereoSamplesBE data count 65536 lv rv).skip_silence = w.skip_silence := by
  unfold WaveFileWriter.addStereoSamplesBE
  by_cases hb : (w.skip_silence && allZero data count) = true
  · rw [if_pos hb]
    exact ⟨hfr, rfl⟩
  · rw [if_neg hb, hfr]
    exact ⟨waveLoop_frac_zero data count lv rv (count + 1) 0 0 w.out_buffer, rfl⟩

/-! ## Claims -/

/-- Claim C1: when `Stop` is called on an open container, the writer patches
the size fields at the fixed absolute offsets of the variant with values
derived from the accumulated payload count `audio_size`, then closes the
stream: for WAV, `audio_size + 36` at offset 4 and `audio_size` at offset 40;
for AIFF, `audio_size + 64` at offset 4, the frame count `audio_size / 4` at
offset 34, and `audio_size - 8` at offset 60. -/
theorem c1_stop_patches_sizes (w : AudioFileWriter) (hopen : w.isOpen = true)
    (hlo : 8 ≤ w.audio_size) (hhi : w.audio_size + 64 < 2 ^ 32) :
    w.stop.isOpen = false ∧
    (w.use_aiff = false →
      readU32LE w.stop.contents 4 = w.audio_size + 36 ∧
      readU32LE w.stop.contents 40 = w.audio_size) ∧
    (w.use_aiff = true →
      readU32BE w.stop.contents 4 = w.audio_size + 64 ∧
      readU32BE w.stop.contents 34 = w.audio_size / 4 ∧
      readU32BE w.stop.contents 60 = w.audio_size - 8) := by
  unfold AudioFileWriter.stop
  rw [if_pos hopen]
  refine ⟨rfl, ?_, ?_⟩
  · intro haiff
    dsimp only
    unfold patchStop
    rw [haiff]
    simp only [Bool.false_eq_true, if_false]
    constructor
    · rw [readU32LE_writeAt_lt _ _ _ _ (by norm_num), readU32LE_writeAt]
      omega
    · rw [readU32LE_writeAt]
      omega
  · intro haiff
    dsimp only
    unfold patchStop
    rw [haiff]
    simp only [if_true]
    refine ⟨?_, ?_, ?_⟩
    · rw [readU32BE_writeAt_lt _ _ _ _ (by norm_num), readU32BE_writeAt_lt _ _ _ _ (by norm_num),
        readU32BE_writeAt]
      omega
    · rw [readU32BE_writeAt_lt _ _ _ _ (by norm_num), readU32BE_writeAt]
      omega
    · rw [readU32BE_writeAt]
      omega

/-- Witness for C1 at a concrete open AIFF container with `audio_size = 100`. -/
theorem c1_stop_patches_sizes_witness :
    (⟨true, List.replicate 72 0, 100, 2250, true, false, "b", 0, "f", []⟩ :
        AudioFileWriter).stop.isOpen = false ∧
    readU32BE (⟨true, List.replicate 72 0, 100, 2250, true, false, "b", 0, "f", []⟩ :
        AudioFileWriter).stop.contents 34 = 25 := by
  have h := c1_stop_patches_sizes
    ⟨true, List.replicate 72 0, 100, 2250, true, false, "b", 0, "f", []⟩
    rfl (by norm_num) (by norm_num)
  refine ⟨h.1, ?_⟩
  rw [(h.2.2 rfl).2.1]
  rfl

/-- Claim C2: for every divisor, a successful WAV `Start` writes exactly the
44-byte header sequence (RIFF, placeholder total size, WAVE, fmt , chunk size
16, channel word 0x00020001, sample rate `dividend / divisor` as u32, byte
rate `sample_rate * 4`, word 0x00100004, data, placeholder data size); after
these writes the position equals 44, so the position-mismatch fault is never
raised. -/
theorem c2_wav_header_layout (dividend divisor : Nat) (h : 0 < divisor) :
    wavHeaderBytes dividend divisor =
      fourCC "RIFF" ++ u32le (100 * 1000 * 1000) ++ fourCC "WAVE" ++ fourCC "fmt " ++
        u32le 16 ++ u32le 0x00020001 ++ u32le (dividend / divisor % 2 ^ 32) ++
        u32le (dividend / divisor % 2 ^ 32 * 4) ++ u32le 0x00100004 ++ fourCC "data" ++
        u32le (100 * 1000 * 1000 - 32) ∧
    (wavHeaderBytes dividend divisor).length = 44 ∧
    wavStartFault dividend divisor = false := by
  refine ⟨?_, ?_, ?_⟩
  · simp only [wavHeaderBytes]
    rw [show dividend / divisor % 2 ^ 32 * 2 * 2 = dividend / divisor % 2 ^ 32 * 4 from by ring]
  · rfl
  · rfl

/-- Witness for C2 with the divisor that yields 48000 Hz. -/
theorem c2_wav_header_layout_witness :
    (0 < 2250) ∧ (wavHeaderBytes 108000000 2250).length = 44 ∧
    wavStartFault 108000000 2250 = false := by
  have h := c2_wav_header_layout 108000000 2250 (by norm_num)
  exact ⟨by norm_num, h.2.1, h.2.2⟩

/-- Claim C4: the integer fallback encoder started from the nonzero `u64`
quotient with exponent `0x3FFF + 63` terminates, leaves bit 63 of the
significand set, and encodes the quotient exactly:
`significand * 2 ^ (exponent - 0x3FFF - 63) = dividend / divisor`. -/
theorem c4_integer_encoder_exact (dividend divisor : Nat) (h1 : 0 < divisor)
    (hq : 0 < dividend / divisor) (hq64 : dividend / divisor < 2 ^ 64) :
    ∃ e s : Nat, encode80_integer dividend divisor = some (e, s) ∧
      s.testBit 63 = true ∧
      (s : ℚ) * (2 : ℚ) ^ ((e : ℤ) - 0x3FFF - 63) = ((dividend / divisor : Nat) : ℚ) := by
  set q := dividend / divisor with hqdef
  have hk1 : 2 ^ Nat.log2 q ≤ q := Nat.log2_self_le (by omega)
  have hk2 : q < 2 ^ (Nat.log2 q + 1) := Nat.lt_log2_self
  have hk63 : Nat.log2 q ≤ 63 := log2_le_of_lt_two_pow q 63 hq hq64
  set k := Nat.log2 q with hkdef
  refine ⟨16383 + k, q * 2 ^ (63 - k), ?_, ?_, ?_⟩
  · unfold encode80_integer
    rw [Nat.mod_eq_of_lt hq64, normLoop_eq 64 q (0x3FFF + 63) hq hq64 (by omega)]
    rw [show 0x3FFF + 63 - (63 - k) = 16383 + k from by omega]
  · have hs1 : 2 ^ 63 ≤ q * 2 ^ (63 - k) := by
      calc 2 ^ 63 = 2 ^ k * 2 ^ (63 - k) := by
            rw [← pow_add]
            congr 1
            omega
        _ ≤ q * 2 ^ (63 - k) := Nat.mul_le_mul_right _ hk1
    have hs2 : q * 2 ^ (63 - k) < 2 ^ 64 := by
      calc q * 2 ^ (63 - k) < 2 ^ (k + 1) * 2 ^ (63 - k) :=
            (Nat.mul_lt_mul_right (Nat.pos_pow_of_pos _ (by norm_num))).2 hk2
        _ = 2 ^ 64 := by
            rw [← pow_add]
            congr 1
            omega
    exact (testBit63_iff _ hs2).2 hs1
  · have hcast : ((16383 + k : Nat) : ℤ) - 0x3FFF - 63 = -((63 - k : Nat) : ℤ) := by omega
    rw [hcast, zpow_neg, zpow_natCast]
    push_cast
    rw [mul_assoc, mul_inv_cancel₀ (by positivity), mul_one]

/-- Witness for C4 at the divisor that yields 48000 Hz. -/
theorem c4_integer_encoder_exact_witness :
    (0 < (2250 : Nat)) ∧ (0 < 108000000 / 2250) ∧
    ∃ e s : Nat, encode80_integer 108000000 2250 = some (e, s) ∧
      s.testBit 63 = true ∧
      (s : ℚ) * (2 : ℚ) ^ ((e : ℤ) - 0x3FFF - 63) = ((108000000 / 2250 : Nat) : ℚ) := by
  refine ⟨by norm_num, by norm_num, ?_⟩
  exact c4_integer_encoder_exact 108000000 2250 (by norm_num) (by norm_num) (by norm_num)

/-- Claim C3: for every (dividend, divisor) pair whose quotient is exactly
representable (the divisor divides the dividend and the quotient has at most
53 significant bits and fits in a u64), the three 80-bit encoding strategies
produce the identical (16-bit exponent, 64-bit significand) pair. -/
theorem c3_three_strategies_agree (dividend divisor : Nat) (h1 : 0 < divisor)
    (h2 : divisor ∣ dividend) (hq : 0 < dividend / divisor)
    (hq64 : dividend / divisor < 2 ^ 64)
    (hexact : dividend / divisor % 2 ^ (Nat.log2 (dividend / divisor) - 52) = 0) :
    encode80_native dividend divisor = encode80_double dividend divisor ∧
    encode80_integer dividend divisor = some (encode80_native dividend divisor) := by
  set q := dividend / divisor with hqdef
  have hk1 : 2 ^ Nat.log2 q ≤ q := Nat.log2_self_le (by omega)
  have hk2 : q < 2 ^ (Nat.log2 q + 1) := Nat.lt_log2_self
  have hk63 : Nat.log2 q ≤ 63 := log2_le_of_lt_two_pow q 63 hq hq64
  set k := Nat.log2 q with hkdef
  have hm : 2 ^ 52 ≤ q * 2 ^ 52 / 2 ^ k ∧ q * 2 ^ 52 / 2 ^ k < 2 ^ 53 ∧
      q * 2 ^ 52 / 2 ^ k * 2 ^ 11 = q * 2 ^ (63 - k) := by
    rcases le_or_lt k 52 with hk52 | hk52
    · have hsplit : (2 : Nat) ^ 52 = 2 ^ (52 - k) * 2 ^ k := by
        rw [← pow_add]
        congr 1
        omega
      have hdiv : q * 2 ^ 52 / 2 ^ k = q * 2 ^ (52 - k) := by
        rw [hsplit, ← Nat.mul_assoc, Nat.mul_div_cancel _ (Nat.pos_pow_of_pos _ (by norm_num))]
      refine ⟨?_, ?_, ?_⟩
      · rw [hdiv, hsplit, Nat.mul_comm (2 ^ (52 - k)) (2 ^ k)]
        exact Nat.mul_le_mul_right _ hk1
      · rw [hdiv]
        calc q * 2 ^ (52 - k) < 2 ^ (k + 1) * 2 ^ (52 - k) :=
              (Nat.mul_lt_mul_right (Nat.pos_pow_of_pos _ (by norm_num))).2 hk2
          _ = 2 ^ 53 := by
              rw [← pow_add]
              congr 1
              omega
      · rw [hdiv, Nat.mul_assoc, ← pow_add]
        congr 2
        omega
    · have hdvd : 2 ^ (k - 52) ∣ q := Nat.dvd_of_mod_eq_zero hexact
      obtain ⟨t, ht⟩ := hdvd
      have hsplit : (2 : Nat) ^ k = 2 ^ (k - 52) * 2 ^ 52 := by
        rw [← pow_add]
        congr 1
        omega
      have hdiv : q * 2 ^ 52 / 2 ^ k = t := by
        rw [ht, hsplit]
        rw [show 2 ^ (k - 52) * t * 2 ^ 52 = t * (2 ^ (k - 52) * 2 ^ 52) from by ring]
        exact Nat.mul_div_cancel _ (by positivity)
      have htl : 2 ^ 52 ≤ t := by
        by_contra hcon
        push_neg at hcon
        have hlt2 : q < 2 ^ k := by
          rw [ht, hsplit]
          exact mul_lt_mul_of_pos_left hcon (Nat.pos_pow_of_pos _ (by norm_num))
        omega
      have hth : t < 2 ^ 53 := by
        by_contra hcon
        push_neg at hcon
        have hge : 2 ^ (k + 1) ≤ q := by
          rw [ht]
          calc (2 : Nat) ^ (k + 1) = 2 ^ (k - 52) * 2 ^ 53 := by
                rw [← pow_add]
                congr 1
                omega
            _ ≤ 2 ^ (k - 52) * t := Nat.mul_le_mul_left _ hcon
        omega
      refine ⟨by omega, by omega, ?_⟩
      rw [hdiv, ht]
      rw [show 2 ^ (k - 52) * t * 2 ^ (63 - k) = t * (2 ^ (k - 52) * 2 ^ (63 - k)) from by ring]
      rw [← pow_add]
      rw [show k - 52 + (63 - k) = 11 from by omega]
  constructor
  · unfold encode80_native encode80_double doubleRateBits extendedRateBits
    rw [← hqdef]
    dsimp only
    have hexp : 0x3FFF + (0x3FF + k - 0x3FF) = 0x3FFF + k := by omega
    have hshift : (1 : Nat) <<< 63 = 2 ^ 63 := by
      rw [Nat.shiftLeft_eq, Nat.one_mul]
    have hmodm : q * 2 ^ 52 / 2 ^ k % 2 ^ 52 = q * 2 ^ 52 / 2 ^ k - 2 ^ 52 := by
      have := hm.1
      have := hm.2.1
      omega
    rw [hexp, show (63 - 52 : Nat) = 11 from rfl, hmodm, hshift]
    have hlt : (q * 2 ^ 52 / 2 ^ k - 2 ^ 52) * 2 ^ 11 < 2 ^ 63 := by
      have := hm.2.1
      omega
    rw [lor_two_pow_of_lt _ _ hlt]
    simp only [Prod.mk.injEq]
    refine ⟨by trivial, ?_⟩
    have ha := hm.1
    have hc := hm.2.2
    have h63 : (2 : Nat) ^ 52 * 2 ^ 11 = 2 ^ 63 := by norm_num
    rw [Nat.sub_mul, hc, h63]
    refine (Nat.sub_add_cancel ?_).symm
    rw [← hc]
    calc (2 : Nat) ^ 63 = 2 ^ 52 * 2 ^ 11 := h63.symm
      _ ≤ q * 2 ^ 52 / 2 ^ k * 2 ^ 11 := Nat.mul_le_mul_right _ ha
  · unfold encode80_integer encode80_native extendedRateBits
    rw [← hqdef, Nat.mod_eq_of_lt hq64, normLoop_eq 64 q (0x3FFF + 63) hq hq64 (by omega)]
    rw [show 0x3FFF + 63 - (63 - k) = 0x3FFF + k from by omega]

/-- Witness for C3 at the divisor that yields 48000 Hz (48000 has 16
significant bits, so the quotient is exactly representable). -/
theorem c3_three_strategies_agree_witness :
    (2250 ∣ 108000000) ∧ (108000000 / 2250 < 2 ^ 64) ∧
    encode80_native 108000000 2250 = encode80_double 108000000 2250 ∧
    encode80_integer 108000000 2250 = some (encode80_native 108000000 2250) := by
  have hlog : Nat.log2 48000 = 15 := by
    rw [Nat.log2_eq_log_two]
    exact Nat.log_eq_of_pow_le_of_lt_pow (by norm_num) (by norm_num)
  have h := c3_three_strategies_agree 108000000 2250 (by norm_num) (by norm_num)
    (by norm_num) (by norm_num)
    (by rw [show (108000000 / 2250 : Nat) = 48000 from by norm_num, hlog]; norm_num)
  exact ⟨by norm_num, by norm_num, h.1, h.2⟩

/-- Claim C5 (code bug): calling `AddStereoSamplesBE` with no open stream
reports the error condition but does not drop the batch: the code only logs
and falls through, so `audio_size` is still incremented by `count * 4` even
though no bytes can reach the stream — contradicting the specified behavior
that a rejected batch never updates the accumulated payload size. -/
theorem c5_error_logged_but_not_dropped :
    audioReportsError (initWriter false) 1 32768 = true ∧
    (AudioFileWriter.addStereoSamplesBE 108000000 "" (initWriter false) [256, 256] 1 0
        256 256).audio_size = 4 ∧
    (AudioFileWriter.addStereoSamplesBE 108000000 "" (initWriter false) [256, 256] 1 0
        256 256).contents = [] := by
  refine ⟨rfl, rfl, rfl⟩

/-- Claim C6: with `skip_silence` enabled, 100 all-zero frames append nothing
and change nothing; 100 non-zero frames then append exactly 400 bytes, and
after `Stop` the WAV data-size field at offset 40 holds 400. -/
theorem c6_skip_silence_scenario (dividend divisor : Nat) (lv rv : Int) (d2 : List Nat)
    (hdiv : 0 < divisor) (hnz : allZero d2 100 = false) :
    AudioFileWriter.addStereoSamplesBE dividend ""
        ((AudioFileWriter.start dividend (initWriter true) "audiodump0.wav" divisor false).1)
        (List.replicate 200 0) 100 divisor lv rv
      = (AudioFileWriter.start dividend (initWriter true) "audiodump0.wav" divisor false).1 ∧
    (convBytes d2 100 lv rv).length = 400 ∧
    (AudioFileWriter.addStereoSamplesBE dividend ""
        (AudioFileWriter.addStereoSamplesBE dividend ""
          ((AudioFileWriter.start dividend (initWriter true) "audiodump0.wav" divisor false).1)
          (List.replicate 200 0) 100 divisor lv rv)
        d2 100 divisor lv rv).contents
      = wavHeaderBytes dividend divisor ++ convBytes d2 100 lv rv ∧
    (AudioFileWriter.addStereoSamplesBE dividend ""
        (AudioFileWriter.addStereoSamplesBE dividend ""
          ((AudioFileWriter.start dividend (initWriter true) "audiodump0.wav" divisor false).1)
          (List.replicate 200 0) 100 divisor lv rv)
        d2 100 divisor lv rv).audio_size = 400 ∧
    readU32LE (AudioFileWriter.addStereoSamplesBE dividend ""
        (AudioFileWriter.addStereoSamplesBE dividend ""
          ((AudioFileWriter.start dividend (initWriter true) "audiodump0.wav" divisor false).1)
          (List.replicate 200 0) 100 divisor lv rv)
        d2 100 divisor lv rv).stop.contents 40 = 400 := by
  have hz : allZero (List.replicate 200 0) 100 = true := by
    unfold allZero
    rw [List.all_eq_true]
    intro i hi
    have hg : (List.replicate 200 0).getD i 0 = 0 := by
      by_cases h : i < 200
      · exact getD_replicate _ _ _ h
      · exact List.getD_eq_default _ _ (by simp only [List.length_replicate]; omega)
    rw [hg]
    rfl
  set A := (AudioFileWriter.start dividend (initWriter true) "audiodump0.wav" divisor false).1
    with hA
  have hskip : A.skip_silence = true := rfl
  have hopen : A.isOpen = true := rfl
  have hcur : A.current_divisor = divisor := rfl
  have hsize : A.audio_size = 0 := rfl
  have hcont : A.contents = wavHeaderBytes dividend divisor := rfl
  have huse : A.use_aiff = false := rfl
  have h1 : AudioFileWriter.addStereoSamplesBE dividend "" A (List.replicate 200 0) 100
      divisor lv rv = A := by
    unfold AudioFileWriter.addStereoSamplesBE
    rw [hskip, hz]
    rw [if_pos (show (true && true) = true from rfl)]
  have h2 : AudioFileWriter.addStereoSamplesBE dividend "" A d2 100 divisor lv rv =
      { A with contents := A.contents ++ convBytes d2 100 lv rv,
               audio_size := A.audio_size + 100 * 4 } := by
    unfold AudioFileWriter.addStereoSamplesBE
    rw [hskip, hnz]
    simp only [Bool.and_false, Bool.false_eq_true, if_false]
    rw [if_neg (show ¬divisor ≠ A.current_divisor by rw [hcur]; exact fun hcc => hcc rfl)]
    rw [if_pos hopen]
    rw [hskip]
  rw [h1]
  refine ⟨rfl, convBytes_length d2 100 lv rv, ?_, ?_, ?_⟩
  · rw [h2]
    exact congrArg (· ++ convBytes d2 100 lv rv) hcont
  · rw [h2]
    dsimp only
    rw [hsize]
  · rw [h2]
    unfold AudioFileWriter.stop
    dsimp only
    rw [if_pos hopen]
    dsimp only
    unfold patchStop
    rw [huse]
    simp only [Bool.false_eq_true, if_false]
    rw [readU32LE_writeAt, hsize]
    norm_num

/-- Witness for C6: 100 zero frames then 100 frames of value 256 at the
divisor that yields 48000 Hz. -/
theorem c6_skip_silence_scenario_witness :
    AudioFileWriter.addStereoSamplesBE 108000000 ""
        ((AudioFileWriter.start 108000000 (initWriter true) "audiodump0.wav" 2250 false).1)
        (List.replicate 200 0) 100 2250 256 256
      = (AudioFileWriter.start 108000000 (initWriter true) "audiodump0.wav" 2250 false).1 ∧
    (convBytes (List.replicate 200 256) 100 256 256).length = 400 := by
  have h := c6_skip_silence_scenario 108000000 2250 256 256 (List.replicate 200 256)
    (by norm_num) (by decide)
  exact ⟨h.1, h.2.1⟩

/-- Claim C7 counterexample: in `WaveFileWriter::AddStereoSamplesBE`, a
constant input of sample value -1 at volume 255 (ratio 1:1, zeroed buffer)
produces output sample -1, while the claimed formula `s * v / 256` clamped to
the 16-bit range gives `clamp((-1 * 255) / 256) = 0` under C truncating
division — so the volume step of this writer does not produce `s * v / 256`
clamped. -/
theorem c7_volume_claim_counterexample :
    (WaveFileWriter.addStereoSamplesBE ⟨true, [], 0, 0, (fun _ => 0), false⟩
        (List.replicate 4 65535) 2 65536 255 255).out_buffer 1 = -1 ∧
    satClamp16 (Int.tdiv ((-1) * 255) 256) = 0 ∧
    (WaveFileWriter.addStereoSamplesBE ⟨true, [], 0, 0, (fun _ => 0), false⟩
        (List.replicate 4 65535) 2 65536 255 255).out_buffer 1
      ≠ satClamp16 (Int.tdiv ((-1) * 255) 256) := by
  refine ⟨by decide, by decide, by decide⟩

/-- Claim C7 (amended): for every sample `s` in the signed 16-bit range and
volume `v` in 0..256, the `AudioFileWriter` volume step produces exactly
`s * v / 256` with C truncating division (always in range, so the claimed
clamp is the identity and the store to `short` never wraps), while the
`WaveFileWriter` volume step produces the flooring shift `(s * v) >> 8`,
which differs on negative products not divisible by 256; in both, `v = 256`
is the identity, `v = 0` produces silence, and the result always lies within
[-32768, 32767], so no saturation or wrapping can occur. -/
theorem c7_volume_step_amended (s v : Int) (hs1 : -32768 ≤ s) (hs2 : s ≤ 32767)
    (hv1 : 0 ≤ v) (hv2 : v ≤ 256) :
    audioVolumeStep s v = Int.tdiv (s * v) 256 ∧
    waveVolumeStep s v = Int.fdiv (s * v) 256 ∧
    -32768 ≤ audioVolumeStep s v ∧ audioVolumeStep s v ≤ 32767 ∧
    -32768 ≤ waveVolumeStep s v ∧ waveVolumeStep s v ≤ 32767 ∧
    audioVolumeStep s v = satClamp16 (Int.tdiv (s * v) 256) ∧
    (v = 256 → audioVolumeStep s v = s ∧ waveVolumeStep s v = s) ∧
    (v = 0 → audioVolumeStep s v = 0 ∧ waveVolumeStep s v = 0) := by
  have ht1 : -8388608 ≤ s * v := by nlinarith
  have ht2 : s * v ≤ 8388352 := by nlinarith
  have hb := tdiv256_bounds (s * v) ht1 ht2
  have hf := fdiv256_bounds (s * v) ht1 ht2
  have haudio : audioVolumeStep s v = Int.tdiv (s * v) 256 := by
    unfold audioVolumeStep
    exact wrapS16_eq_of_range _ hb.1 hb.2
  refine ⟨haudio, rfl, ?_, ?_, hf.1, hf.2, ?_, ?_, ?_⟩
  · rw [haudio]
    exact hb.1
  · rw [haudio]
    exact hb.2
  · rw [haudio, satClamp16_eq_of_range _ hb.1 hb.2]
  · intro hv
    subst hv
    constructor
    · rw [haudio]
      exact Int.mul_tdiv_cancel s (by norm_num)
    · unfold waveVolumeStep
      exact Int.mul_fdiv_cancel s (by norm_num)
  · intro hv
    subst hv
    constructor
    · rw [haudio]
      simp
    · unfold waveVolumeStep
      simp

/-- Witness for C7 (amended) at `s = -32768`, `v = 256`. -/
theorem c7_volume_step_amended_witness :
    audioVolumeStep (-32768) 256 = -32768 ∧ waveVolumeStep (-32768) 256 = -32768 := by
  have h := c7_volume_step_amended (-32768) 256 (by norm_num) (by norm_num) (by norm_num)
    (by norm_num)
  exact ⟨(h.2.2.2.2.2.2.2.1 rfl).1, (h.2.2.2.2.2.2.2.1 rfl).2⟩

/-- Claim C8: at conversion step 65536 (ratio exactly 1:1) and volume 256,
resampling a constant-amplitude batch into a zeroed output buffer reproduces
the input sample value exactly in every produced slot, and the fractional
phase stays 0 across any number of consecutive calls. -/
theorem c8_ratio_one_to_one (count n u : Nat) (w : WaveFileWriter)
    (hcount : 2 * count < 2 ^ 32) (hfr : w.frac = 0) (hss : w.skip_silence = false)
    (hbuf : ∀ j, w.out_buffer j = 0) :
    (∀ j, j < 2 * count - 2 →
      (w.addStereoSamplesBE (List.replicate (2 * count) u) count 65536 256 256).out_buffer j
        = toS16 (swap16 u)) ∧
    (w.addStereoSamplesBE (List.replicate (2 * count) u) count 65536 256 256).audio_size
        = w.audio_size + (2 * count - 2) * 2 ∧
    ((fun w' : WaveFileWriter =>
        w'.addStereoSamplesBE (List.replicate (2 * count) u) count 65536 256 256)^[n] w).frac
      = 0 := by
  have hc := waveAdd_const count u w hcount hfr hss hbuf
  refine ⟨?_, hc.2.2, ?_⟩
  · intro j hj
    rw [hc.1]
    simp [hj]
  · have hiter : ∀ m w', w'.frac = 0 → w'.skip_silence = false →
        ((fun w'' : WaveFileWriter =>
          w''.addStereoSamplesBE (List.replicate (2 * count) u) count 65536 256 256)^[m]
            w').frac = 0 := by
      intro m
      induction m with
      | zero =>
        intro w' hf1 _
        simpa using hf1
      | succ mm ih =>
        intro w' hf1 hs1
        rw [Function.iterate_succ_apply]
        have hstep := waveAdd_frac_zero w' (List.replicate (2 * count) u) count 256 256 hf1
        exact ih _ hstep.1 (by rw [hstep.2]; exact hs1)
    exact hiter n w hfr hss

/-- Witness for C8 with 3 frames of raw value 0x0100 (sample value 1) and two
consecutive calls. -/
theorem c8_ratio_one_to_one_witness :
    ((⟨true, [], 0, 0, (fun _ => 0), false⟩ : WaveFileWriter).addStereoSamplesBE
        (List.replicate 6 256) 3 65536 256 256).out_buffer 0 = toS16 (swap16 256) ∧
    ((fun w' : WaveFileWriter =>
        w'.addStereoSamplesBE (List.replicate 6 256) 3 65536 256 256)^[2]
          ⟨true, [], 0, 0, (fun _ => 0), false⟩).frac = 0 := by
  have h := c8_ratio_one_to_one 3 2 256 ⟨true, [], 0, 0, (fun _ => 0), false⟩
    (by norm_num) rfl rfl (fun j => rfl)
  exact ⟨h.1 0 (by norm_num), h.2.2⟩

/-- Claim C9: an accepted batch whose divisor differs from the one the open
container was created with triggers exactly one rotation: the current segment
is finalized with its size patches and recorded, the segment index is
incremented, the next filename is built from the dump path, stored basename,
new index, and variant extension, a new segment is opened with the new
divisor (its contents being exactly the variant header for the new divisor),
and the batch is written into the new segment. -/
theorem c9_rate_change_rotation (dividend : Nat) (dumpPath : String)
    (w : AudioFileWriter) (data : List Nat) (count divisor : Nat) (lv rv : Int)
    (hopen : w.isOpen = true) (hdiff : divisor ≠ w.current_divisor)
    (haccept : (w.skip_silence && allZero data count) = false) :
    (AudioFileWriter.addStereoSamplesBE dividend dumpPath w data count divisor
        lv rv).closed_files
      = w.closed_files ++ [(w.current_filename,
          patchStop w.use_aiff w.contents w.audio_size)] ∧
    (AudioFileWriter.addStereoSamplesBE dividend dumpPath w data count divisor
        lv rv).file_index = w.file_index + 1 ∧
    (AudioFileWriter.addStereoSamplesBE dividend dumpPath w data count divisor
        lv rv).current_filename
      = dumpPath ++ w.basename ++ toString (w.file_index + 1) ++
          (if w.use_aiff then ".aiff" else ".wav") ∧
    (AudioFileWriter.addStereoSamplesBE dividend dumpPath w data count divisor
        lv rv).isOpen = true ∧
    (AudioFileWriter.addStereoSamplesBE dividend dumpPath w data count divisor
        lv rv).current_divisor = divisor ∧
    (AudioFileWriter.addStereoSamplesBE dividend dumpPath w data count divisor
        lv rv).use_aiff = w.use_aiff ∧
    (AudioFileWriter.addStereoSamplesBE dividend dumpPath w data count divisor
        lv rv).contents
      = (if w.use_aiff then aiffHeaderBytes dividend divisor
         else wavHeaderBytes dividend divisor) ++ convBytes data count lv rv ∧
    (AudioFileWriter.addStereoSamplesBE dividend dumpPath w data count divisor
        lv rv).audio_size = count * 4 := by
  unfold AudioFileWriter.addStereoSamplesBE
  rw [haccept]
  simp only [Bool.false_eq_true, if_false]
  rw [if_pos hdiff]
  unfold AudioFileWriter.stop
  rw [if_pos hopen]
  unfold AudioFileWriter.start
  dsimp only
  simp only [Bool.false_eq_true, if_false, if_true]
  refine ⟨trivial, trivial, trivial, trivial, trivial, trivial, trivial, ?_⟩
  omega

/-- Witness for C9: a rotation from the 48000 Hz divisor 2250 to the 32000 Hz
divisor 3375 on an open WAV segment. -/
theorem c9_rate_change_rotation_witness :
    (AudioFileWriter.addStereoSamplesBE 108000000 ""
        ⟨true, wavHeaderBytes 108000000 2250, 0, 2250, false, false, "audiodump", 0,
          "audiodump0.wav", []⟩ [256, 256] 1 3375 256 256).file_index = 1 ∧
    (AudioFileWriter.addStereoSamplesBE 108000000 ""
        ⟨true, wavHeaderBytes 108000000 2250, 0, 2250, false, false, "audiodump", 0,
          "audiodump0.wav", []⟩ [256, 256] 1 3375 256 256).current_filename
      = "audiodump1.wav" ∧
    (AudioFileWriter.addStereoSamplesBE 108000000 ""
        ⟨true, wavHeaderBytes 108000000 2250, 0, 2250, false, false, "audiodump", 0,
          "audiodump0.wav", []⟩ [256, 256] 1 3375 256 256).audio_size = 4 := by
  have h := c9_rate_change_rotation 108000000 ""
    ⟨true, wavHeaderBytes 108000000 2250, 0, 2250, false, false, "audiodump", 0,
      "audiodump0.wav", []⟩ [256, 256] 1 3375 256 256 rfl (by norm_num) rfl
  refine ⟨h.2.1, ?_, ?_⟩
  · rw [h.2.2.1]
    rfl
  · rw [h.2.2.2.2.2.2.2]

/-- Claim C10: on every dump call, `CheckEm` guarantees that the receiving
segment holds at most 2,000,000,000 payload bytes before the batch is
appended: if the open segment exceeded that bound (or the rate changed or no
file was open), it is stopped and a freshly numbered segment with a reset
payload counter is opened first. -/
theorem c10_dumper_size_rotation (d : AudioDumper) (nsamp : Nat) (srate : Int) :
    (d.checkEm srate).1.wfr.audio_size ≤ 2 * 1000 * 1000 * 1000 ∧
    (d.dumpSamplesBE nsamp srate).1.wfr.audio_size
        = (d.checkEm srate).1.wfr.audio_size + 4 * nsamp ∧
    (d.dumpSamples nsamp srate).1.wfr.audio_size
        = (d.checkEm srate).1.wfr.audio_size + 4 * nsamp ∧
    (d.fileopen = true → d.wfr.audio_size > 2 * 1000 * 1000 * 1000 →
      (d.checkEm srate).1.fileindex = d.fileindex + 1 ∧
      (d.checkEm srate).1.wfr.audio_size = 0) := by
  by_cases hcond : ¬d.fileopen = true ∨ srate ≠ d.currentrate ∨
      d.wfr.audio_size > 2 * 1000 * 1000 * 1000
  · unfold AudioDumper.dumpSamplesBE AudioDumper.dumpSamples AudioDumper.checkEm
    rw [if_pos hcond]
    exact ⟨by norm_num, rfl, rfl, fun _ _ => ⟨rfl, rfl⟩⟩
  · unfold AudioDumper.dumpSamplesBE AudioDumper.dumpSamples AudioDumper.checkEm
    rw [if_neg hcond]
    push_neg at hcond
    exact ⟨hcond.2.2, rfl, rfl, fun _ hgt => absurd hgt (by
      have := hcond.2.2
      omega)⟩

/-- Witness for C10: a dumper whose open segment holds 2,000,000,001 bytes
rotates before the next write. -/
theorem c10_dumper_size_rotation_witness :
    (AudioDumper.checkEm ⟨⟨2000000001⟩, 48000, true, 3, "x"⟩ 48000).1.wfr.audio_size
        ≤ 2 * 1000 * 1000 * 1000 ∧
    (AudioDumper.checkEm ⟨⟨2000000001⟩, 48000, true, 3, "x"⟩ 48000).1.fileindex = 4 ∧
    (AudioDumper.dumpSamplesBE ⟨⟨2000000001⟩, 48000, true, 3, "x"⟩ 5 48000).1.wfr.audio_size
        = (AudioDumper.checkEm ⟨⟨2000000001⟩, 48000, true, 3, "x"⟩ 48000).1.wfr.audio_size
            + 4 * 5 := by
  have h := c10_dumper_size_rotation ⟨⟨2000000001⟩, 48000, true, 3, "x"⟩ 5 48000
  refine ⟨h.1, ?_, h.2.1⟩
  have h4 := h.2.2.2 rfl (by norm_num)
  rw [h4.1]
